import Mathlib

/-!
Verification of the Black-Scholes Greeks engine of
src/app/api/calculate-greeks/route.ts.

The TypeScript source computes over IEEE doubles; the shallow embedding
below models the same expressions over the real numbers, with Math.log,
Math.exp and Math.sqrt embedded as Real.log, Real.exp and Real.sqrt.
Every definition mirrors the corresponding source expression; the
recursive call normCdf(-x) of the source (reached only for
-6 <= x < 0, so with -x landing in the non-recursive branch) is
unfolded once into the branch normCdfPos applied to -x.
-/

namespace BS

/-- Coefficient b1 of the rational CDF approximation (route.ts, normCdf). -/
noncomputable def b1 : ℝ := 0.31938153

/-- Coefficient b2 of the rational CDF approximation. -/
noncomputable def b2 : ℝ := -0.356563782

/-- Coefficient b3 of the rational CDF approximation. -/
noncomputable def b3 : ℝ := 1.781477937

/-- Coefficient b4 of the rational CDF approximation. -/
noncomputable def b4 : ℝ := -1.821255978

/-- Coefficient b5 of the rational CDF approximation. -/
noncomputable def b5 : ℝ := 1.330274429

/-- Scale constant p of the rational CDF approximation. -/
noncomputable def p : ℝ := 0.2316419

/-- Scale constant c of the rational CDF approximation. -/
noncomputable def c : ℝ := 0.39894228

/-- The polynomial factor t * (t * (t * (t * (t * b5 + b4) + b3) + b2) + b1)
appearing in the source normCdf, as a function of t. -/
noncomputable def Qp (t : ℝ) : ℝ :=
  t * (t * (t * (t * (t * b5 + b4) + b3) + b2) + b1)

/-- The branch of the source normCdf taken for x >= 0 (route.ts):
t = 1 / (1 + p * x); 1 - c * exp(-x*x/2) * t * (poly in t). -/
noncomputable def normCdfPos (x : ℝ) : ℝ :=
  1 - c * Real.exp (-x * x / 2) * Qp (1 / (1 + p * x))

/-- The source normCdf: 0 below -6, 1 above 6, the rational approximation
for 0 <= x <= 6, and 1 - normCdf(-x) otherwise; in that last branch
-x lies in (0, 6], so the inner call is the x >= 0 branch. -/
noncomputable def normCdf (x : ℝ) : ℝ :=
  if x < -6 then 0
  else if x > 6 then 1
  else if 0 ≤ x then normCdfPos x
  else 1 - normCdfPos (-x)

/-- The source normPdf: exp(-0.5*x*x) / sqrt(2*pi). -/
noncomputable def normPdf (x : ℝ) : ℝ :=
  Real.exp (-0.5 * x * x) / Real.sqrt (2 * Real.pi)

/-- The local constant d1 of calculateGreeksJS. -/
noncomputable def d1 (S K T r sigma : ℝ) : ℝ :=
  (Real.log (S / K) + (r + 0.5 * sigma * sigma) * T) / (sigma * Real.sqrt T)

/-- The local constant d2 of calculateGreeksJS. -/
noncomputable def d2 (S K T r sigma : ℝ) : ℝ :=
  d1 S K T r sigma - sigma * Real.sqrt T

/-- Line 48 of route.ts: if (sigma <= 0) sigma = 0.001. -/
noncomputable def clampSigma (sigma : ℝ) : ℝ :=
  if sigma ≤ 0 then 0.001 else sigma

/-- The result record returned by calculateGreeksJS. -/
structure GreeksResult where
  price : ℝ
  delta : ℝ
  gamma : ℝ
  theta : ℝ
  vega : ℝ
  rho : ℝ

/-- The engine calculateGreeksJS of route.ts. -/
noncomputable def calculateGreeksJS (S K T r sigma : ℝ) (optionType : String) :
    GreeksResult :=
  if T ≤ 0 then
    { price := if optionType = "call" then max (S - K) 0 else max (K - S) 0
      delta := if optionType = "call" then (if S > K then 1 else 0)
               else (if S < K then -1 else 0)
      gamma := 0, theta := 0, vega := 0, rho := 0 }
  else
    { price := if optionType = "call" then
          S * normCdf (d1 S K T r (clampSigma sigma)) -
            K * Real.exp (-r * T) * normCdf (d2 S K T r (clampSigma sigma))
        else
          K * Real.exp (-r * T) * normCdf (-(d2 S K T r (clampSigma sigma))) -
            S * normCdf (-(d1 S K T r (clampSigma sigma)))
      delta := if optionType = "call" then normCdf (d1 S K T r (clampSigma sigma))
        else normCdf (d1 S K T r (clampSigma sigma)) - 1
      gamma := normPdf (d1 S K T r (clampSigma sigma)) /
          (S * clampSigma sigma * Real.sqrt T)
      theta := ((-S * normPdf (d1 S K T r (clampSigma sigma)) * clampSigma sigma) /
            (2 * Real.sqrt T) -
          r * K * Real.exp (-r * T) *
            (if optionType = "call" then normCdf (d2 S K T r (clampSigma sigma))
             else normCdf (-(d2 S K T r (clampSigma sigma))))) / 365
      vega := S * normPdf (d1 S K T r (clampSigma sigma)) * Real.sqrt T / 100
      rho := if optionType = "call" then
          K * T * Real.exp (-r * T) * normCdf (d2 S K T r (clampSigma sigma)) / 100
        else
          -K * T * Real.exp (-r * T) * normCdf (-(d2 S K T r (clampSigma sigma))) / 100 }

/-- The JSON body received by the POST handler; absent fields are none.
NaN does not exist in the real-number model, so a numeric field is falsy
exactly when it is absent or zero. -/
structure RequestBody where
  spotPrice : Option ℝ
  strikePrice : Option ℝ
  timeToExpiry : Option ℝ
  riskFreeRate : Option ℝ
  volatility : Option ℝ
  optionType : Option String

/-- The validation condition of the POST handler (route.ts lines 12-19):
spotPrice, strikePrice, volatility falsy; timeToExpiry or riskFreeRate
undefined; optionType falsy. -/
def missingParams (b : RequestBody) : Prop :=
  b.spotPrice = none ∨ b.spotPrice = some 0 ∨
  b.strikePrice = none ∨ b.strikePrice = some 0 ∨
  b.timeToExpiry = none ∨
  b.riskFreeRate = none ∨
  b.volatility = none ∨ b.volatility = some 0 ∨
  b.optionType = none ∨ b.optionType = some ""

/-- A response of the POST handler: either a status code with a full
Greeks record, or a status code with an error string and no numeric
fields. -/
inductive ApiResponse where
  | ok (status : Nat) (result : GreeksResult)
  | err (status : Nat) (msg : String)

open Classical in
/-- The POST handler of route.ts: validate, convert days to years,
invoke the engine. The catch branch (status 500) is unreachable in the
embedding because the engine is a total function. -/
noncomputable def POST (b : RequestBody) : ApiResponse :=
  if missingParams b then ApiResponse.err 400 "Missing required parameters"
  else
    ApiResponse.ok 200
      (calculateGreeksJS (b.spotPrice.getD 0) (b.strikePrice.getD 0)
        (b.timeToExpiry.getD 0 / 365) (b.riskFreeRate.getD 0)
        (b.volatility.getD 0) (b.optionType.getD ""))

/-! Rational facts about the approximation polynomial. -/

lemma Qp_mono {u v : ℝ} (hu : 2/5 ≤ u) (huv : u ≤ v) (hv : v ≤ 1) : Qp u ≤ Qp v := by
  have h1 : 0 ≤ v - u := by linarith
  have h2 : 0 ≤ u - 2/5 := by linarith
  have h3 : 0 ≤ 1 - v := by linarith
  simp only [Qp, b1, b2, b3, b4, b5]
  nlinarith [mul_nonneg h1 h2, mul_nonneg h1 h3, mul_nonneg h2 h3,
    mul_nonneg (mul_nonneg h1 h2) h3, mul_nonneg (mul_nonneg h1 h2) h2,
    mul_nonneg (mul_nonneg h1 h3) h3, sq_nonneg (u + v - 1), sq_nonneg (u - v),
    sq_nonneg (u + v - 4/5), mul_nonneg (mul_nonneg (mul_nonneg h1 h2) h2) h2,
    mul_nonneg (mul_nonneg (mul_nonneg h1 h3) h3) h3]

lemma Qp_pos {u : ℝ} (hu : 2/5 ≤ u) (hv : u ≤ 1) : 0 < Qp u :=
  lt_of_lt_of_le (by norm_num [Qp, b1, b2, b3, b4, b5]) (Qp_mono le_rfl hu hv)

lemma Qp_le_Qp_one {u : ℝ} (hu : 2/5 ≤ u) (hv : u ≤ 1) : Qp u ≤ Qp 1 :=
  Qp_mono hu hv le_rfl

lemma c_nonneg : (0 : ℝ) ≤ c := by norm_num [c]

/-- The key rational inequality: c times the polynomial at t = 1 is just
below one half (it equals 0.49999999897207008). -/
lemma c_Qp_one_lt_half : c * Qp 1 < 1/2 := by
  norm_num [c, Qp, b1, b2, b3, b4, b5]

lemma t_lb {x : ℝ} (hx0 : 0 ≤ x) (hx6 : x ≤ 6) : 2/5 ≤ 1 / (1 + p * x) := by
  have hp : (0 : ℝ) < 1 + p * x := by simp only [p]; nlinarith
  rw [le_div_iff₀ hp]
  simp only [p]; nlinarith

lemma t_ub {x : ℝ} (hx0 : 0 ≤ x) : 1 / (1 + p * x) ≤ 1 := by
  have hp : (0 : ℝ) < 1 + p * x := by simp only [p]; nlinarith
  rw [div_le_one hp]
  simp only [p]; nlinarith

lemma t_anti {a b : ℝ} (ha : 0 ≤ a) (hab : a ≤ b) :
    1 / (1 + p * b) ≤ 1 / (1 + p * a) := by
  have hp : (0 : ℝ) < 1 + p * a := by simp only [p]; nlinarith
  apply one_div_le_one_div_of_le hp
  simp only [p]; nlinarith

/-! Bounds and monotonicity for the x >= 0 branch of normCdf. -/

lemma cExpQp_nonneg {x : ℝ} (hx0 : 0 ≤ x) (hx6 : x ≤ 6) :
    0 ≤ c * Real.exp (-x * x / 2) * Qp (1 / (1 + p * x)) :=
  mul_nonneg (mul_nonneg c_nonneg (Real.exp_pos _).le)
    (Qp_pos (t_lb hx0 hx6) (t_ub hx0)).le

lemma cExpQp_lt_half {x : ℝ} (hx0 : 0 ≤ x) (hx6 : x ≤ 6) :
    c * Real.exp (-x * x / 2) * Qp (1 / (1 + p * x)) < 1/2 := by
  have hQ1 : (0 : ℝ) ≤ Qp 1 := by norm_num [Qp, b1, b2, b3, b4, b5]
  have hexp : Real.exp (-x * x / 2) ≤ 1 := by
    rw [show (1 : ℝ) = Real.exp 0 from (Real.exp_zero).symm]
    exact Real.exp_le_exp.mpr (by nlinarith)
  calc c * Real.exp (-x * x / 2) * Qp (1 / (1 + p * x))
      ≤ c * Real.exp (-x * x / 2) * Qp 1 := by
        have := Qp_le_Qp_one (t_lb hx0 hx6) (t_ub hx0)
        have hce : 0 ≤ c * Real.exp (-x * x / 2) :=
          mul_nonneg c_nonneg (Real.exp_pos _).le
        exact mul_le_mul_of_nonneg_left this hce
    _ ≤ c * 1 * Qp 1 := by
        have hc := c_nonneg
        nlinarith [mul_le_mul_of_nonneg_left hexp hc]
    _ < 1/2 := by rw [mul_one]; exact c_Qp_one_lt_half

lemma normCdfPos_le_one {x : ℝ} (hx0 : 0 ≤ x) (hx6 : x ≤ 6) : normCdfPos x ≤ 1 := by
  have := cExpQp_nonneg hx0 hx6
  simp only [normCdfPos]; linarith

lemma half_lt_normCdfPos {x : ℝ} (hx0 : 0 ≤ x) (hx6 : x ≤ 6) : 1/2 < normCdfPos x := by
  have := cExpQp_lt_half hx0 hx6
  simp only [normCdfPos]; linarith

lemma normCdfPos_mono {x y : ℝ} (hx0 : 0 ≤ x) (hxy : x ≤ y) (hy6 : y ≤ 6) :
    normCdfPos x ≤ normCdfPos y := by
  simp only [normCdfPos]
  have hQ : Qp (1 / (1 + p * y)) ≤ Qp (1 / (1 + p * x)) :=
    Qp_mono (t_lb (by linarith) hy6) (t_anti hx0 hxy) (t_ub hx0)
  have hE : Real.exp (-y * y / 2) ≤ Real.exp (-x * x / 2) :=
    Real.exp_le_exp.mpr (by nlinarith)
  have hQ0 : 0 ≤ Qp (1 / (1 + p * y)) :=
    (Qp_pos (t_lb (by linarith) hy6) (t_ub (by linarith))).le
  have h : c * Real.exp (-y * y / 2) * Qp (1 / (1 + p * y)) ≤
      c * Real.exp (-x * x / 2) * Qp (1 / (1 + p * x)) := by
    have h1 : c * Real.exp (-y * y / 2) ≤ c * Real.exp (-x * x / 2) :=
      mul_le_mul_of_nonneg_left hE c_nonneg
    have h2 : 0 ≤ c * Real.exp (-y * y / 2) :=
      mul_nonneg c_nonneg (Real.exp_pos _).le
    calc c * Real.exp (-y * y / 2) * Qp (1 / (1 + p * y))
        ≤ c * Real.exp (-x * x / 2) * Qp (1 / (1 + p * y)) :=
          mul_le_mul_of_nonneg_right h1 hQ0
      _ ≤ c * Real.exp (-x * x / 2) * Qp (1 / (1 + p * x)) :=
          mul_le_mul_of_nonneg_left hQ (mul_nonneg c_nonneg (Real.exp_pos _).le)
  linarith

/-! Branch equations and global facts for normCdf. -/

lemma normCdf_eq_zero {x : ℝ} (hx : x < -6) : normCdf x = 0 := by
  rw [normCdf, if_pos hx]

lemma normCdf_eq_one {x : ℝ} (hx : 6 < x) : normCdf x = 1 := by
  rw [normCdf, if_neg (by push_neg; linarith), if_pos hx]

lemma normCdf_eq_pos {x : ℝ} (hx0 : 0 ≤ x) (hx6 : x ≤ 6) : normCdf x = normCdfPos x := by
  rw [normCdf, if_neg (by push_neg; linarith), if_neg (by push_neg; linarith), if_pos hx0]

lemma normCdf_eq_neg {x : ℝ} (hx6 : -6 ≤ x) (hx0 : x < 0) :
    normCdf x = 1 - normCdfPos (-x) := by
  rw [normCdf, if_neg (by push_neg; linarith), if_neg (by push_neg; linarith),
    if_neg (by push_neg; linarith)]

lemma normCdf_nonneg (x : ℝ) : 0 ≤ normCdf x := by
  by_cases h1 : x < -6
  · rw [normCdf_eq_zero h1]
  push_neg at h1
  by_cases h2 : 6 < x
  · rw [normCdf_eq_one h2]; norm_num
  push_neg at h2
  by_cases h3 : 0 ≤ x
  · rw [normCdf_eq_pos h3 h2]
    linarith [half_lt_normCdfPos h3 h2]
  · push_neg at h3
    rw [normCdf_eq_neg h1 h3]
    linarith [normCdfPos_le_one (x := -x) (by linarith) (by linarith)]

lemma normCdf_le_one (x : ℝ) : normCdf x ≤ 1 := by
  by_cases h1 : x < -6
  · rw [normCdf_eq_zero h1]; norm_num
  push_neg at h1
  by_cases h2 : 6 < x
  · rw [normCdf_eq_one h2]
  push_neg at h2
  by_cases h3 : 0 ≤ x
  · rw [normCdf_eq_pos h3 h2]
    exact normCdfPos_le_one h3 h2
  · push_neg at h3
    rw [normCdf_eq_neg h1 h3]
    linarith [half_lt_normCdfPos (x := -x) (by linarith) (by linarith)]

lemma normCdf_add_neg {x : ℝ} (hx : 0 < x) : normCdf x + normCdf (-x) = 1 := by
  by_cases h6 : 6 < x
  · rw [normCdf_eq_one h6, normCdf_eq_zero (by linarith)]; ring
  · push_neg at h6
    rw [normCdf_eq_pos hx.le h6, normCdf_eq_neg (by linarith) (by linarith), neg_neg]
    ring

/-- Symmetry of the embedded CDF away from zero. -/
lemma normCdf_symm {x : ℝ} (hx : x ≠ 0) : normCdf x + normCdf (-x) = 1 := by
  rcases hx.lt_or_lt with h | h
  · have h2 := normCdf_add_neg (x := -x) (by linarith)
    rw [neg_neg] at h2; linarith
  · exact normCdf_add_neg h

/-- The embedded CDF is monotone on all of the reals (each saturation
boundary jumps upward). -/
lemma normCdf_mono {x y : ℝ} (hxy : x ≤ y) : normCdf x ≤ normCdf y := by
  by_cases hx1 : x < -6
  · rw [normCdf_eq_zero hx1]; exact normCdf_nonneg y
  push_neg at hx1
  by_cases hy2 : 6 < y
  · rw [normCdf_eq_one hy2]; exact normCdf_le_one x
  push_neg at hy2
  by_cases hx0 : 0 ≤ x
  · rw [normCdf_eq_pos hx0 (by linarith), normCdf_eq_pos (by linarith) hy2]
    exact normCdfPos_mono hx0 hxy hy2
  push_neg at hx0
  by_cases hy0 : 0 ≤ y
  · rw [normCdf_eq_neg hx1 hx0, normCdf_eq_pos hy0 hy2]
    have h1 := half_lt_normCdfPos (x := -x) (by linarith) (by linarith)
    have h2 := half_lt_normCdfPos hy0 hy2
    linarith
  · push_neg at hy0
    rw [normCdf_eq_neg hx1 hx0, normCdf_eq_neg (by linarith) hy0]
    have := normCdfPos_mono (x := -y) (y := -x) (by linarith) (by linarith) (by linarith)
    linarith

/-! The auxiliary function g(x) = exp(x^2/2) * normCdf(x). Its
monotonicity is what makes both Black-Scholes prices nonnegative even
with the approximate CDF. -/

/-- Auxiliary: the CDF rescaled by the inverse Gaussian weight. -/
noncomputable def gAux (x : ℝ) : ℝ := Real.exp (x ^ 2 / 2) * normCdf x

lemma gAux_nonneg (x : ℝ) : 0 ≤ gAux x :=
  mul_nonneg (Real.exp_pos _).le (normCdf_nonneg x)

lemma exp_sq_mul_exp_neg (x : ℝ) : Real.exp (x ^ 2 / 2) * Real.exp (-x * x / 2) = 1 := by
  rw [← Real.exp_add, show x ^ 2 / 2 + -x * x / 2 = 0 by ring, Real.exp_zero]

lemma gAux_eq_pos {x : ℝ} (hx0 : 0 ≤ x) (hx6 : x ≤ 6) :
    gAux x = Real.exp (x ^ 2 / 2) - c * Qp (1 / (1 + p * x)) := by
  rw [gAux, normCdf_eq_pos hx0 hx6]
  simp only [normCdfPos]
  linear_combination (-(c * Qp (1 / (1 + p * x)))) * exp_sq_mul_exp_neg x

lemma gAux_eq_neg {x : ℝ} (hx6 : -6 ≤ x) (hx0 : x < 0) :
    gAux x = c * Qp (1 / (1 + p * -x)) := by
  rw [gAux, normCdf_eq_neg hx6 hx0]
  simp only [normCdfPos]
  have h : Real.exp (x ^ 2 / 2) * Real.exp (-(-x) * -x / 2) = 1 := by
    rw [← Real.exp_add, show x ^ 2 / 2 + -(-x) * -x / 2 = 0 by ring, Real.exp_zero]
  linear_combination (c * Qp (1 / (1 + p * -x))) * h

lemma gAux_mono {x y : ℝ} (hxy : x ≤ y) : gAux x ≤ gAux y := by
  by_cases hx1 : x < -6
  · rw [gAux, normCdf_eq_zero hx1, mul_zero]; exact gAux_nonneg y
  push_neg at hx1
  by_cases hx0 : x < 0
  · -- x in [-6, 0)
    rw [gAux_eq_neg hx1 hx0]
    have hux : 2/5 ≤ 1 / (1 + p * -x) := t_lb (by linarith) (by linarith)
    have hux1 : 1 / (1 + p * -x) ≤ 1 := t_ub (by linarith)
    by_cases hy0 : y < 0
    · rw [gAux_eq_neg (by linarith) hy0]
      have hu : 1 / (1 + p * -x) ≤ 1 / (1 + p * -y) :=
        t_anti (by linarith) (by linarith)
      exact mul_le_mul_of_nonneg_left
        (Qp_mono hux hu (t_ub (by linarith))) c_nonneg
    · push_neg at hy0
      have hcx : c * Qp (1 / (1 + p * -x)) ≤ c * Qp 1 :=
        mul_le_mul_of_nonneg_left (Qp_le_Qp_one hux hux1) c_nonneg
      by_cases hy6 : 6 < y
      · rw [gAux, normCdf_eq_one hy6, mul_one]
        have h1 : (1 : ℝ) ≤ Real.exp (y ^ 2 / 2) := Real.one_le_exp (by positivity)
        linarith [c_Qp_one_lt_half]
      · push_neg at hy6
        rw [gAux_eq_pos hy0 hy6]
        have h2 : c * Qp (1 / (1 + p * y)) ≤ c * Qp 1 :=
          mul_le_mul_of_nonneg_left
            (Qp_le_Qp_one (t_lb hy0 hy6) (t_ub hy0)) c_nonneg
        have h3 : (1 : ℝ) ≤ Real.exp (y ^ 2 / 2) := Real.one_le_exp (by positivity)
        linarith [c_Qp_one_lt_half]
  · push_neg at hx0
    by_cases hx6 : 6 < x
    · rw [gAux, normCdf_eq_one hx6, mul_one, gAux, normCdf_eq_one (by linarith), mul_one]
      exact Real.exp_le_exp.mpr (by nlinarith)
    push_neg at hx6
    rw [gAux_eq_pos hx0 hx6]
    by_cases hy6 : 6 < y
    · rw [gAux, normCdf_eq_one hy6, mul_one]
      have h0 : 0 ≤ c * Qp (1 / (1 + p * x)) :=
        mul_nonneg c_nonneg (Qp_pos (t_lb hx0 hx6) (t_ub hx0)).le
      have hE : Real.exp (x ^ 2 / 2) ≤ Real.exp (y ^ 2 / 2) :=
        Real.exp_le_exp.mpr (by nlinarith)
      linarith
    · push_neg at hy6
      rw [gAux_eq_pos (by linarith) hy6]
      have hQ : c * Qp (1 / (1 + p * y)) ≤ c * Qp (1 / (1 + p * x)) :=
        mul_le_mul_of_nonneg_left
          (Qp_mono (t_lb (by linarith) hy6) (t_anti hx0 hxy) (t_ub hx0)) c_nonneg
      have hE : Real.exp (x ^ 2 / 2) ≤ Real.exp (y ^ 2 / 2) :=
        Real.exp_le_exp.mpr (by nlinarith)
      linarith

/-! Algebra of d1 and d2 and nonnegativity of both prices. -/

lemma clampSigma_pos (sg : ℝ) : 0 < clampSigma sg := by
  rw [clampSigma]; split_ifs with h
  · norm_num
  · push_neg at h; exact h

lemma clampSigma_eq {sg : ℝ} (h : 0 < sg) : clampSigma sg = sg :=
  if_neg (not_le.mpr h)

lemma d2_le_d1 {S K T r sg : ℝ} (hT : 0 ≤ T) (hsg : 0 ≤ sg) :
    d2 S K T r sg ≤ d1 S K T r sg := by
  rw [d2]
  have := mul_nonneg hsg (Real.sqrt_nonneg T)
  linarith

lemma d_sq_diff {S K T r sg : ℝ} (hT : 0 < T) (hsg : 0 < sg) :
    (d1 S K T r sg) ^ 2 / 2 - (d2 S K T r sg) ^ 2 / 2 =
      Real.log (S / K) + r * T := by
  have hs : sg * Real.sqrt T ≠ 0 :=
    mul_ne_zero hsg.ne' (Real.sqrt_pos.mpr hT).ne'
  have hsq : (sg * Real.sqrt T) ^ 2 = sg ^ 2 * T := by
    rw [mul_pow, Real.sq_sqrt hT.le]
  have hd1 : d1 S K T r sg * (sg * Real.sqrt T) =
      Real.log (S / K) + (r + 0.5 * sg * sg) * T := by
    rw [d1, div_mul_cancel₀ _ hs]
  calc (d1 S K T r sg) ^ 2 / 2 - (d2 S K T r sg) ^ 2 / 2
      = d1 S K T r sg * (sg * Real.sqrt T) - (sg * Real.sqrt T) ^ 2 / 2 := by
        rw [d2]; ring
    _ = Real.log (S / K) + (r + 0.5 * sg * sg) * T - sg ^ 2 * T / 2 := by
        rw [hd1, hsq]
    _ = Real.log (S / K) + r * T := by ring

lemma spot_from_strike {S K T r sg : ℝ} (hS : 0 < S) (hK : 0 < K) (hT : 0 < T)
    (hsg : 0 < sg) :
    K * Real.exp (-r * T) *
      Real.exp ((d1 S K T r sg) ^ 2 / 2 - (d2 S K T r sg) ^ 2 / 2) = S := by
  rw [d_sq_diff hT hsg, mul_assoc, ← Real.exp_add,
    show -r * T + (Real.log (S / K) + r * T) = Real.log (S / K) by ring,
    Real.exp_log (div_pos hS hK)]
  field_simp

lemma callPrice_nonneg {S K T r sg : ℝ} (hS : 0 < S) (hK : 0 < K) (hT : 0 < T)
    (hsg : 0 < sg) :
    0 ≤ S * normCdf (d1 S K T r sg) -
      K * Real.exp (-r * T) * normCdf (d2 S K T r sg) := by
  have hAB : d2 S K T r sg ≤ d1 S K T r sg := d2_le_d1 hT.le hsg.le
  have hg : gAux (d2 S K T r sg) ≤ gAux (d1 S K T r sg) := gAux_mono hAB
  have h1 : S * normCdf (d1 S K T r sg) =
      K * Real.exp (-r * T) * Real.exp (-(d2 S K T r sg) ^ 2 / 2) *
        gAux (d1 S K T r sg) := by
    rw [gAux]
    calc S * normCdf (d1 S K T r sg)
        = K * Real.exp (-r * T) *
            Real.exp ((d1 S K T r sg) ^ 2 / 2 - (d2 S K T r sg) ^ 2 / 2) *
            normCdf (d1 S K T r sg) := by rw [spot_from_strike hS hK hT hsg]
      _ = _ := by
          rw [show (d1 S K T r sg) ^ 2 / 2 - (d2 S K T r sg) ^ 2 / 2 =
            -(d2 S K T r sg) ^ 2 / 2 + (d1 S K T r sg) ^ 2 / 2 by ring, Real.exp_add]
          ring
  have h2 : K * Real.exp (-r * T) * normCdf (d2 S K T r sg) =
      K * Real.exp (-r * T) * Real.exp (-(d2 S K T r sg) ^ 2 / 2) *
        gAux (d2 S K T r sg) := by
    rw [gAux]
    have h3 : Real.exp (-(d2 S K T r sg) ^ 2 / 2) *
        Real.exp ((d2 S K T r sg) ^ 2 / 2) = 1 := by
      rw [← Real.exp_add,
        show -(d2 S K T r sg) ^ 2 / 2 + (d2 S K T r sg) ^ 2 / 2 = 0 from by ring,
        Real.exp_zero]
    calc K * Real.exp (-r * T) * normCdf (d2 S K T r sg)
        = K * Real.exp (-r * T) *
            ((Real.exp (-(d2 S K T r sg) ^ 2 / 2) *
              Real.exp ((d2 S K T r sg) ^ 2 / 2)) * normCdf (d2 S K T r sg)) := by
          rw [h3]; ring
      _ = _ := by ring
  rw [h1, h2]
  have hpos : 0 ≤ K * Real.exp (-r * T) * Real.exp (-(d2 S K T r sg) ^ 2 / 2) := by
    positivity
  nlinarith [mul_le_mul_of_nonneg_left hg hpos]

lemma putPrice_nonneg {S K T r sg : ℝ} (hS : 0 < S) (hK : 0 < K) (hT : 0 < T)
    (hsg : 0 < sg) :
    0 ≤ K * Real.exp (-r * T) * normCdf (-(d2 S K T r sg)) -
      S * normCdf (-(d1 S K T r sg)) := by
  have hAB : d2 S K T r sg ≤ d1 S K T r sg := d2_le_d1 hT.le hsg.le
  have hg : gAux (-(d1 S K T r sg)) ≤ gAux (-(d2 S K T r sg)) :=
    gAux_mono (by linarith)
  have h1 : S * normCdf (-(d1 S K T r sg)) =
      K * Real.exp (-r * T) * Real.exp (-(d2 S K T r sg) ^ 2 / 2) *
        gAux (-(d1 S K T r sg)) := by
    rw [gAux, neg_sq]
    calc S * normCdf (-(d1 S K T r sg))
        = K * Real.exp (-r * T) *
            Real.exp ((d1 S K T r sg) ^ 2 / 2 - (d2 S K T r sg) ^ 2 / 2) *
            normCdf (-(d1 S K T r sg)) := by rw [spot_from_strike hS hK hT hsg]
      _ = _ := by
          rw [show (d1 S K T r sg) ^ 2 / 2 - (d2 S K T r sg) ^ 2 / 2 =
            -(d2 S K T r sg) ^ 2 / 2 + (d1 S K T r sg) ^ 2 / 2 by ring, Real.exp_add]
          ring
  have h2 : K * Real.exp (-r * T) * normCdf (-(d2 S K T r sg)) =
      K * Real.exp (-r * T) * Real.exp (-(d2 S K T r sg) ^ 2 / 2) *
        gAux (-(d2 S K T r sg)) := by
    rw [gAux, neg_sq]
    have h3 : Real.exp (-(d2 S K T r sg) ^ 2 / 2) *
        Real.exp ((d2 S K T r sg) ^ 2 / 2) = 1 := by
      rw [← Real.exp_add,
        show -(d2 S K T r sg) ^ 2 / 2 + (d2 S K T r sg) ^ 2 / 2 = 0 from by ring,
        Real.exp_zero]
    calc K * Real.exp (-r * T) * normCdf (-(d2 S K T r sg))
        = K * Real.exp (-r * T) *
            ((Real.exp (-(d2 S K T r sg) ^ 2 / 2) *
              Real.exp ((d2 S K T r sg) ^ 2 / 2)) * normCdf (-(d2 S K T r sg))) := by
          rw [h3]; ring
      _ = _ := by ring
  rw [h1, h2]
  have hpos : 0 ≤ K * Real.exp (-r * T) * Real.exp (-(d2 S K T r sg) ^ 2 / 2) := by
    positivity
  nlinarith [mul_le_mul_of_nonneg_left hg hpos]

lemma normPdf_nonneg (x : ℝ) : 0 ≤ normPdf x := by
  rw [normPdf]
  positivity

/-! The claims. -/

/-- C2: for every input with T <= 0, calculateGreeksJS skips the
Black-Scholes machinery and returns pure intrinsic value: for a call,
price = max(S-K, 0) and delta = 1 if S > K else 0; for a put,
price = max(K-S, 0) and delta = -1 if S < K else 0; and
gamma = theta = vega = rho = 0 in both cases, for every relation
between S and K. -/
theorem claim_C2_expiry_intrinsic (S K T r sg : ℝ) (hT : T ≤ 0) :
    ((calculateGreeksJS S K T r sg "call").price = max (S - K) 0 ∧
     (calculateGreeksJS S K T r sg "call").delta = (if S > K then 1 else 0) ∧
     (calculateGreeksJS S K T r sg "call").gamma = 0 ∧
     (calculateGreeksJS S K T r sg "call").theta = 0 ∧
     (calculateGreeksJS S K T r sg "call").vega = 0 ∧
     (calculateGreeksJS S K T r sg "call").rho = 0) ∧
    ((calculateGreeksJS S K T r sg "put").price = max (K - S) 0 ∧
     (calculateGreeksJS S K T r sg "put").delta = (if S < K then -1 else 0) ∧
     (calculateGreeksJS S K T r sg "put").gamma = 0 ∧
     (calculateGreeksJS S K T r sg "put").theta = 0 ∧
     (calculateGreeksJS S K T r sg "put").vega = 0 ∧
     (calculateGreeksJS S K T r sg "put").rho = 0) := by
  simp only [calculateGreeksJS, if_pos hT]
  norm_num
  exact ⟨fun h => absurd h (by decide), fun h => absurd h (by decide)⟩

/-- Witness for C2 at S = 2, K = 1, T = 0: intrinsic call value 1. -/
theorem claim_C2_witness : (calculateGreeksJS 2 1 0 0 1 "call").price = 1 := by
  have h := claim_C2_expiry_intrinsic 2 1 0 0 1 le_rfl
  rw [h.1.1]; norm_num

/-- C5: for sigma <= 0 (including volatility 0) the engine clamps sigma
to 0.001 before proceeding and never rejects: the result is identical to
the result for sigma = 0.001 (in particular no division by zero occurs
and the price is a well-defined real number). -/
theorem claim_C5_zero_vol_clamp (S K T r sg : ℝ) (ty : String) (hsg : sg ≤ 0) :
    calculateGreeksJS S K T r sg ty = calculateGreeksJS S K T r 0.001 ty := by
  have h : clampSigma sg = clampSigma 0.001 := by
    rw [clampSigma, clampSigma, if_pos hsg, if_neg (by norm_num)]
  simp only [calculateGreeksJS, h]

/-- Witness for C5 at sigma = 0. -/
theorem claim_C5_witness :
    calculateGreeksJS 1 1 1 0 0 "call" = calculateGreeksJS 1 1 1 0 0.001 "call" :=
  claim_C5_zero_vol_clamp 1 1 1 0 0 "call" le_rfl

/-- C9 (implicit): every optionType other than the exact string "call"
produces the same result as "put" in every branch; no option type is
rejected by the engine. -/
theorem claim_C9_nonCall_is_put (S K T r sg : ℝ) (ty : String) (h : ty ≠ "call") :
    calculateGreeksJS S K T r sg ty = calculateGreeksJS S K T r sg "put" := by
  have hpc : ("put" : String) ≠ "call" := by decide
  simp only [calculateGreeksJS, if_neg h, if_neg hpc]

/-- Witness for C9 at the capitalised string Call. -/
theorem claim_C9_witness :
    calculateGreeksJS 1 1 1 0 1 "Call" = calculateGreeksJS 1 1 1 0 1 "put" :=
  claim_C9_nonCall_is_put 1 1 1 0 1 "Call" (by decide)

/-- C6: the boundary rejects a request exactly when a required field is
falsy or undefined, with a 400 error object carrying only a message, and
otherwise returns status 200 with the full Greeks record computed by the
engine from the supplied fields (all-or-nothing output; the client-input
status 400 is distinct from the internal-error status 500 of the catch
branch, which is unreachable in the embedding). -/
theorem claim_C6_validation (b : RequestBody) :
    ((∃ m, POST b = ApiResponse.err 400 m) ↔ missingParams b) ∧
    (¬ missingParams b →
      POST b = ApiResponse.ok 200
        (calculateGreeksJS (b.spotPrice.getD 0) (b.strikePrice.getD 0)
          (b.timeToExpiry.getD 0 / 365) (b.riskFreeRate.getD 0)
          (b.volatility.getD 0) (b.optionType.getD ""))) := by
  refine ⟨⟨?_, ?_⟩, ?_⟩
  · rintro ⟨m, hm⟩
    by_contra h
    rw [POST, if_neg h] at hm
    exact ApiResponse.noConfusion hm
  · intro h
    exact ⟨"Missing required parameters", by rw [POST, if_pos h]⟩
  · intro h
    rw [POST, if_neg h]

/-- Witness for C6 on a fully populated valid body. -/
theorem claim_C6_witness :
    POST ⟨some 100, some 100, some 30, some (5/100), some (25/100), some "call"⟩ =
      ApiResponse.ok 200 (calculateGreeksJS 100 100 (30/365) (5/100) (25/100) "call") := by
  have h := (claim_C6_validation
    ⟨some 100, some 100, some 30, some (5/100), some (25/100), some "call"⟩).2
    (by simp [missingParams])
  simpa [Option.getD] using h

/-- C3: for every valid request (S > 0, K > 0, T >= 0, sigma >= 0) the
engine result satisfies price >= 0, gamma >= 0, vega >= 0; for calls
0 <= delta <= 1 and rho >= 0; for puts -1 <= delta <= 0 and rho <= 0. -/
theorem claim_C3_invariants (S K T r sg : ℝ) (hS : 0 < S) (hK : 0 < K)
    (hT : 0 ≤ T) (hsg : 0 ≤ sg) :
    (0 ≤ (calculateGreeksJS S K T r sg "call").price ∧
     0 ≤ (calculateGreeksJS S K T r sg "call").gamma ∧
     0 ≤ (calculateGreeksJS S K T r sg "call").vega ∧
     0 ≤ (calculateGreeksJS S K T r sg "call").delta ∧
     (calculateGreeksJS S K T r sg "call").delta ≤ 1 ∧
     0 ≤ (calculateGreeksJS S K T r sg "call").rho) ∧
    (0 ≤ (calculateGreeksJS S K T r sg "put").price ∧
     0 ≤ (calculateGreeksJS S K T r sg "put").gamma ∧
     0 ≤ (calculateGreeksJS S K T r sg "put").vega ∧
     -1 ≤ (calculateGreeksJS S K T r sg "put").delta ∧
     (calculateGreeksJS S K T r sg "put").delta ≤ 0 ∧
     (calculateGreeksJS S K T r sg "put").rho ≤ 0) := by
  have hc : (("call" : String) = "call") := rfl
  have hpc : ¬(("put" : String) = "call") := by decide
  by_cases hT0 : T ≤ 0
  · simp only [calculateGreeksJS, if_pos hT0, if_pos hc, if_neg hpc]
    refine ⟨⟨le_max_right _ _, le_rfl, le_rfl, ?_, ?_, le_rfl⟩,
      ⟨le_max_right _ _, le_rfl, le_rfl, ?_, ?_, le_rfl⟩⟩ <;>
    · split_ifs <;> norm_num
  · push_neg at hT0
    have hsgp : 0 < clampSigma sg := clampSigma_pos sg
    have hpdf := normPdf_nonneg (d1 S K T r (clampSigma sg))
    have hrho : 0 ≤ K * T * Real.exp (-r * T) *
        normCdf (d2 S K T r (clampSigma sg)) / 100 :=
      div_nonneg (mul_nonneg (mul_nonneg (mul_nonneg hK.le hT0.le)
        (Real.exp_pos _).le) (normCdf_nonneg _)) (by norm_num)
    have hrho2 : 0 ≤ K * T * Real.exp (-r * T) *
        normCdf (-(d2 S K T r (clampSigma sg))) / 100 :=
      div_nonneg (mul_nonneg (mul_nonneg (mul_nonneg hK.le hT0.le)
        (Real.exp_pos _).le) (normCdf_nonneg _)) (by norm_num)
    simp only [calculateGreeksJS, if_neg (not_le.mpr hT0), if_pos hc, if_neg hpc]
    refine ⟨⟨?_, ?_, ?_, ?_, ?_, ?_⟩, ⟨?_, ?_, ?_, ?_, ?_, ?_⟩⟩
    · exact callPrice_nonneg hS hK hT0 hsgp
    · exact div_nonneg hpdf (by positivity)
    · exact div_nonneg (mul_nonneg (mul_nonneg hS.le hpdf) (Real.sqrt_nonneg T))
        (by norm_num)
    · exact normCdf_nonneg _
    · exact normCdf_le_one _
    · exact hrho
    · exact putPrice_nonneg hS hK hT0 hsgp
    · exact div_nonneg hpdf (by positivity)
    · exact div_nonneg (mul_nonneg (mul_nonneg hS.le hpdf) (Real.sqrt_nonneg T))
        (by norm_num)
    · linarith [normCdf_nonneg (d1 S K T r (clampSigma sg))]
    · linarith [normCdf_le_one (d1 S K T r (clampSigma sg))]
    · have h : -K * T * Real.exp (-r * T) *
          normCdf (-(d2 S K T r (clampSigma sg))) / 100 =
          -(K * T * Real.exp (-r * T) *
            normCdf (-(d2 S K T r (clampSigma sg))) / 100) := by ring
      rw [h]
      exact neg_nonpos_of_nonneg hrho2

/-- Witness for C3 at S = 1, K = 1, T = 0, r = 0, sigma = 0. -/
theorem claim_C3_witness :
    (0 ≤ (calculateGreeksJS 1 1 0 0 0 "call").price ∧
     0 ≤ (calculateGreeksJS 1 1 0 0 0 "call").gamma ∧
     0 ≤ (calculateGreeksJS 1 1 0 0 0 "call").vega ∧
     0 ≤ (calculateGreeksJS 1 1 0 0 0 "call").delta ∧
     (calculateGreeksJS 1 1 0 0 0 "call").delta ≤ 1 ∧
     0 ≤ (calculateGreeksJS 1 1 0 0 0 "call").rho) ∧
    (0 ≤ (calculateGreeksJS 1 1 0 0 0 "put").price ∧
     0 ≤ (calculateGreeksJS 1 1 0 0 0 "put").gamma ∧
     0 ≤ (calculateGreeksJS 1 1 0 0 0 "put").vega ∧
     -1 ≤ (calculateGreeksJS 1 1 0 0 0 "put").delta ∧
     (calculateGreeksJS 1 1 0 0 0 "put").delta ≤ 0 ∧
     (calculateGreeksJS 1 1 0 0 0 "put").rho ≤ 0) :=
  claim_C3_invariants 1 1 0 0 0 (by norm_num) (by norm_num) le_rfl le_rfl

/-- C1: for S > 0, K > 0, T > 0 and positive sigma (so the clamp leaves
sigma unchanged), the engine returns exactly the Black-Scholes values of
the specification, stated with the spec formulas for d1, d2, the prices,
delta, rho, gamma, theta, vega, where N is the engine normalCdf and n is
the exact normal density exp(-x^2/2)/sqrt(2*pi). -/
theorem claim_C1_formulas (S K T r sg dd1 dd2 : ℝ) (hS : 0 < S) (hK : 0 < K)
    (hT : 0 < T) (hsg : 0 < sg)
    (hd1 : dd1 = (Real.log (S / K) + (r + 0.5 * sg ^ 2) * T) / (sg * Real.sqrt T))
    (hd2 : dd2 = dd1 - sg * Real.sqrt T) :
    (calculateGreeksJS S K T r sg "call").price =
        S * normCdf dd1 - K * Real.exp (-(r * T)) * normCdf dd2 ∧
    (calculateGreeksJS S K T r sg "call").delta = normCdf dd1 ∧
    (calculateGreeksJS S K T r sg "call").rho =
        K * T * Real.exp (-(r * T)) * normCdf dd2 / 100 ∧
    (calculateGreeksJS S K T r sg "put").price =
        K * Real.exp (-(r * T)) * normCdf (-dd2) - S * normCdf (-dd1) ∧
    (calculateGreeksJS S K T r sg "put").delta = normCdf dd1 - 1 ∧
    (calculateGreeksJS S K T r sg "put").rho =
        -(K * T * Real.exp (-(r * T)) * normCdf (-dd2)) / 100 ∧
    (calculateGreeksJS S K T r sg "call").gamma =
        Real.exp (-dd1 ^ 2 / 2) / Real.sqrt (2 * Real.pi) / (S * sg * Real.sqrt T) ∧
    (calculateGreeksJS S K T r sg "put").gamma =
        Real.exp (-dd1 ^ 2 / 2) / Real.sqrt (2 * Real.pi) / (S * sg * Real.sqrt T) ∧
    (calculateGreeksJS S K T r sg "call").theta =
        (-(S * (Real.exp (-dd1 ^ 2 / 2) / Real.sqrt (2 * Real.pi)) * sg) /
            (2 * Real.sqrt T) -
          r * K * Real.exp (-(r * T)) * normCdf dd2) / 365 ∧
    (calculateGreeksJS S K T r sg "put").theta =
        (-(S * (Real.exp (-dd1 ^ 2 / 2) / Real.sqrt (2 * Real.pi)) * sg) /
            (2 * Real.sqrt T) -
          r * K * Real.exp (-(r * T)) * normCdf (-dd2)) / 365 ∧
    (calculateGreeksJS S K T r sg "call").vega =
        S * (Real.exp (-dd1 ^ 2 / 2) / Real.sqrt (2 * Real.pi)) * Real.sqrt T / 100 ∧
    (calculateGreeksJS S K T r sg "put").vega =
        S * (Real.exp (-dd1 ^ 2 / 2) / Real.sqrt (2 * Real.pi)) * Real.sqrt T / 100 := by
  have hc : (("call" : String) = "call") := rfl
  have hpc : ¬(("put" : String) = "call") := by decide
  have hcs : clampSigma sg = sg := clampSigma_eq hsg
  subst hd2
  subst hd1
  simp only [calculateGreeksJS, if_neg (not_le.mpr hT), if_pos hc, if_neg hpc,
    eq_self_iff_true, if_true, hcs, d2, d1, normPdf]
  refine ⟨?_, ?_, ?_, ?_, ?_, ?_, ?_, ?_, ?_, ?_, ?_, ?_⟩ <;> ring_nf

/-- Witness for C1 at S = K = 1, T = 1, r = 0, sigma = 1 (d1 = 1/2,
d2 = -1/2). -/
theorem claim_C1_witness :
    (calculateGreeksJS 1 1 1 0 1 "call").delta = normCdf (1/2) ∧
    (calculateGreeksJS 1 1 1 0 1 "put").price =
      1 * Real.exp (-(0 * 1)) * normCdf (-(-1/2)) - 1 * normCdf (-(1/2)) := by
  have h := claim_C1_formulas 1 1 1 0 1 (1/2) (-1/2) (by norm_num) (by norm_num)
    (by norm_num) (by norm_num)
    (by norm_num [Real.log_one, Real.sqrt_one])
    (by norm_num [Real.sqrt_one])
  exact ⟨h.2.1, h.2.2.2.1⟩

/-- The engine CDF at zero: the positive branch at x = 0 gives
1 - c * Qp 1 exactly. -/
lemma normCdf_zero : normCdf 0 = 1 - c * Qp 1 := by
  rw [normCdf_eq_pos le_rfl (by norm_num), normCdfPos]
  norm_num

/-- C10 counterexample: the claim asserts normalCdf(0) < 0.5; in fact
the engine value at zero is 1 - c * Qp 1 = 0.50000000102792992, which is
strictly greater than one half. -/
theorem claim_C10_counterexample : ¬ (normCdf 0 < 1/2) := by
  rw [normCdf_zero]
  push_neg
  norm_num [c, Qp, b1, b2, b3, b4, b5]

/-- C10 amended: the engine normalCdf maps every real into [0, 1], and
its value at zero is strictly greater than one half (not less). -/
theorem claim_C10_cdf_bounds :
    (∀ x : ℝ, 0 ≤ normCdf x ∧ normCdf x ≤ 1) ∧ 1/2 < normCdf 0 := by
  refine ⟨fun x => ⟨normCdf_nonneg x, normCdf_le_one x⟩, ?_⟩
  rw [normCdf_zero]
  norm_num [c, Qp, b1, b2, b3, b4, b5]

/-- C8 counterexample: at the finite point x = 0 the engine CDF violates
normalCdf(x) + normalCdf(-x) = 1, because both summands take the
positive branch and 2 * (1 - c * Qp 1) is not 1. -/
theorem claim_C8_counterexample : normCdf 0 + normCdf (-0) ≠ 1 := by
  rw [neg_zero, normCdf_zero]
  norm_num [c, Qp, b1, b2, b3, b4, b5]

/-- C8 amended: the reflection identity normalCdf(x) + normalCdf(-x) = 1
holds exactly for every nonzero x (in particular throughout both
saturation regions and at the boundary values 6 and -6); at x = 0 it
fails by 2 * (1/2 - c * Qp 1). -/
theorem claim_C8_symmetry (x : ℝ) (hx : x ≠ 0) :
    normCdf x + normCdf (-x) = 1 :=
  normCdf_symm hx

/-- Witness for C8 at x = 5. -/
theorem claim_C8_witness : normCdf 5 + normCdf (-5) = 1 :=
  claim_C8_symmetry 5 (by norm_num)

/-- C4 amended: for identical parameters with T > 0, whenever neither d1
nor d2 (computed from the clamped sigma) is exactly zero, the call price
minus the put price equals S - K * exp(-r*T) exactly, hence in
particular within the 1e-6 tolerance; at d1 = 0 or d2 = 0 the defect of
the CDF at zero enters, scaled by the notional. -/
theorem claim_C4_parity (S K T r sg : ℝ) (hT : 0 < T)
    (h1 : d1 S K T r (clampSigma sg) ≠ 0) (h2 : d2 S K T r (clampSigma sg) ≠ 0) :
    (calculateGreeksJS S K T r sg "call").price -
      (calculateGreeksJS S K T r sg "put").price = S - K * Real.exp (-r * T) := by
  have hc : (("call" : String) = "call") := rfl
  have hpc : ¬(("put" : String) = "call") := by decide
  simp only [calculateGreeksJS, if_neg (not_le.mpr hT), if_pos hc, if_neg hpc,
    eq_self_iff_true, if_true]
  have hs1 := normCdf_symm h1
  have hs2 := normCdf_symm h2
  linear_combination S * hs1 - K * Real.exp (-r * T) * hs2

/-- Witness for C4 at S = K = 100, T = 1, r = 0, sigma = 1/2 (there
d1 = 1/4 and d2 = -1/4). -/
theorem claim_C4_witness :
    (calculateGreeksJS 100 100 1 0 (1/2) "call").price -
      (calculateGreeksJS 100 100 1 0 (1/2) "put").price =
      100 - 100 * Real.exp (-0 * 1) := by
  have hcs : clampSigma (1/2 : ℝ) = 1/2 := clampSigma_eq (by norm_num)
  have hd1 : d1 100 100 1 0 (clampSigma (1/2)) = 1/4 := by
    rw [hcs, d1]
    norm_num [Real.log_one, Real.sqrt_one]
  have hd2 : d2 100 100 1 0 (clampSigma (1/2)) = -(1/4) := by
    rw [d2, hd1, hcs]
    norm_num [Real.sqrt_one]
  exact claim_C4_parity 100 100 1 0 (1/2) (by norm_num)
    (by rw [hd1]; norm_num) (by rw [hd2]; norm_num)

/-- C4 counterexample: at S = K = 10^9, T = 1 year, r = -1/50 and
sigma = 1/5 the formulas give d1 = 0, where the CDF defect at zero makes
the parity error 10^9 * (1 - 2 * c * Qp 1) = 2.05585984, far above the
1e-6 tolerance the claim asserts for every valid parameter set. -/
theorem claim_C4_counterexample :
    ¬ (|(calculateGreeksJS 1000000000 1000000000 1 (-1/50) (1/5) "call").price -
        (calculateGreeksJS 1000000000 1000000000 1 (-1/50) (1/5) "put").price -
        (1000000000 - 1000000000 * Real.exp (-(-1/50) * 1))| ≤ 1/1000000) := by
  have hc : (("call" : String) = "call") := rfl
  have hpc : ¬(("put" : String) = "call") := by decide
  have hcs : clampSigma (1/5 : ℝ) = 1/5 := clampSigma_eq (by norm_num)
  have hd1 : d1 1000000000 1000000000 1 (-1/50) (1/5) = 0 := by
    rw [d1]
    norm_num [Real.log_one, Real.sqrt_one]
  have hd2 : d2 1000000000 1000000000 1 (-1/50) (1/5) = -(1/5) := by
    rw [d2, hd1]
    norm_num [Real.sqrt_one]
  have hsym : normCdf (1/5) + normCdf (-(1/5)) = 1 := normCdf_symm (by norm_num)
  have hcq : c * Qp 1 = 49999999897207008/100000000000000000 := by
    norm_num [c, Qp, b1, b2, b3, b4, b5]
  have hcall : (calculateGreeksJS 1000000000 1000000000 1 (-1/50) (1/5) "call").price =
      1000000000 * (1 - c * Qp 1) -
        1000000000 * Real.exp (-(-1/50) * 1) * normCdf (-(1/5)) := by
    simp only [calculateGreeksJS, if_neg (by norm_num : ¬(1 : ℝ) ≤ 0), if_pos hc,
      eq_self_iff_true, if_true, hcs, hd1, hd2, normCdf_zero]
  have hput : (calculateGreeksJS 1000000000 1000000000 1 (-1/50) (1/5) "put").price =
      1000000000 * Real.exp (-(-1/50) * 1) * normCdf (1/5) -
        1000000000 * (1 - c * Qp 1) := by
    simp only [calculateGreeksJS, if_neg (by norm_num : ¬(1 : ℝ) ≤ 0), if_neg hpc,
      hcs, hd1, hd2, neg_neg, neg_zero, normCdf_zero]
  rw [hcall, hput]
  intro h
  rw [show 1000000000 * (1 - c * Qp 1) -
      1000000000 * Real.exp (-(-1/50) * 1) * normCdf (-(1/5)) -
      (1000000000 * Real.exp (-(-1/50) * 1) * normCdf (1/5) -
        1000000000 * (1 - c * Qp 1)) -
      (1000000000 - 1000000000 * Real.exp (-(-1/50) * 1)) =
      205585984/100000000 from by
    linear_combination (-(1000000000 : ℝ) * Real.exp (-(-1/50) * 1)) * hsym -
      2000000000 * hcq] at h
  rw [abs_of_nonneg (by norm_num)] at h
  norm_num at h

lemma d1_atm {K T r sg : ℝ} (hK : 0 < K) (hT : 0 < T) (hsg : sg ≠ 0) :
    d1 (K * Real.exp (-r * T)) K T r sg = sg * Real.sqrt T / 2 := by
  have hlog : Real.log (K * Real.exp (-r * T) / K) = -r * T := by
    rw [mul_div_cancel_left₀ _ hK.ne', Real.log_exp]
  have hs : Real.sqrt T ≠ 0 := (Real.sqrt_pos.mpr hT).ne'
  have hsq : Real.sqrt T * Real.sqrt T = T := Real.mul_self_sqrt hT.le
  simp only [d1]
  rw [hlog, div_eq_iff (mul_ne_zero hsg hs)]
  linear_combination (-(sg * sg) / 2) * hsq

/-- At the forward-at-the-money point S = K * exp(-r*T) both prices
collapse to the same expression K * exp(-r*T) * (2 * N(h) - 1) with
h = sigma * sqrt(T) / 2. -/
lemma atm_prices {K T r sg : ℝ} (hK : 0 < K) (hT : 0 < T) (hsg : 0 < sg) :
    (calculateGreeksJS (K * Real.exp (-r * T)) K T r sg "call").price =
      K * Real.exp (-r * T) *
        (normCdf (sg * Real.sqrt T / 2) + normCdf (sg * Real.sqrt T / 2) - 1) ∧
    (calculateGreeksJS (K * Real.exp (-r * T)) K T r sg "put").price =
      K * Real.exp (-r * T) *
        (normCdf (sg * Real.sqrt T / 2) + normCdf (sg * Real.sqrt T / 2) - 1) := by
  have hc : (("call" : String) = "call") := rfl
  have hpc : ¬(("put" : String) = "call") := by decide
  have hcs : clampSigma sg = sg := clampSigma_eq hsg
  have hd1a : d1 (K * Real.exp (-r * T)) K T r sg = sg * Real.sqrt T / 2 :=
    d1_atm hK hT hsg.ne'
  have hd2a : d2 (K * Real.exp (-r * T)) K T r sg = -(sg * Real.sqrt T / 2) := by
    rw [d2, hd1a]; ring
  have hpos : 0 < sg * Real.sqrt T / 2 := by
    have := Real.sqrt_pos.mpr hT
    positivity
  have hsym := normCdf_symm (x := sg * Real.sqrt T / 2) hpos.ne'
  simp only [calculateGreeksJS, if_neg (not_le.mpr hT), if_pos hc, if_neg hpc,
    eq_self_iff_true, if_true, hcs, hd1a, hd2a, neg_neg]
  constructor
  · linear_combination (-(K * Real.exp (-r * T))) * hsym
  · linear_combination (-(K * Real.exp (-r * T))) * hsym

/-- C7 amended: with the other parameters held fixed, increasing sigma
never decreases the price in the forward-at-the-money case
S = K * exp(-r*T), for both option types. (Global monotonicity in sigma
fails: see the counterexample, where d1 crosses the saturation boundary
6 of the approximate CDF from above and the price drops by about 1e-9.) -/
theorem claim_C7_mono_amended (S K T r sga sgb : ℝ) (hK : 0 < K) (hT : 0 < T)
    (hS : S = K * Real.exp (-r * T)) (ha : 0 < sga) (hab : sga ≤ sgb) :
    (calculateGreeksJS S K T r sga "call").price ≤
      (calculateGreeksJS S K T r sgb "call").price ∧
    (calculateGreeksJS S K T r sga "put").price ≤
      (calculateGreeksJS S K T r sgb "put").price := by
  subst hS
  have hb : 0 < sgb := lt_of_lt_of_le ha hab
  have h1 := atm_prices (r := r) hK hT ha
  have h2 := atm_prices (r := r) hK hT hb
  have hm : normCdf (sga * Real.sqrt T / 2) ≤ normCdf (sgb * Real.sqrt T / 2) :=
    normCdf_mono (by nlinarith [Real.sqrt_nonneg T])
  have hke : (0 : ℝ) ≤ K * Real.exp (-r * T) := by positivity
  constructor
  · rw [h1.1, h2.1]
    exact mul_le_mul_of_nonneg_left (by linarith) hke
  · rw [h1.2, h2.2]
    exact mul_le_mul_of_nonneg_left (by linarith) hke

/-- Witness for the amended C7 at K = 1, T = 1, r = 0, sigma from 1 to 2. -/
theorem claim_C7_witness :
    (calculateGreeksJS (1 * Real.exp (-0 * 1)) 1 1 0 1 "call").price ≤
      (calculateGreeksJS (1 * Real.exp (-0 * 1)) 1 1 0 2 "call").price ∧
    (calculateGreeksJS (1 * Real.exp (-0 * 1)) 1 1 0 1 "put").price ≤
      (calculateGreeksJS (1 * Real.exp (-0 * 1)) 1 1 0 2 "put").price :=
  claim_C7_mono_amended (1 * Real.exp (-0 * 1)) 1 1 0 1 2 (by norm_num)
    (by norm_num) rfl (by norm_num) (by norm_num)

set_option maxHeartbeats 1000000 in
/-- Rational evaluation: lower bound for the polynomial factor at
x = 5.955 (the d2 of the sigma = 0.09 leg). -/
lemma Qp_at_a : (163/1000 : ℝ) ≤ Qp (1 / (1 + p * (1191/200 : ℝ))) := by
  norm_num [Qp, p, b1, b2, b3, b4, b5]

set_option maxHeartbeats 1000000 in
/-- Rational evaluation: the polynomial factor grows by at most 0.0032
between x = 5.45 and x = 5.35. -/
lemma Qp_diff_cb : Qp (1 / (1 + p * (107/20 : ℝ))) -
    Qp (1 / (1 + p * (109/20 : ℝ))) ≤ 32/10000 := by
  norm_num [Qp, p, b1, b2, b3, b4, b5]

set_option maxHeartbeats 1000000 in
/-- C7 counterexample: at S = exp(27/50), K = 1, T = 1, r = 0, raising
sigma from 0.09 to 0.10 moves d1 from 6.045 (saturated branch, CDF = 1)
down to 5.45 (polynomial branch), and the call price strictly decreases,
so increasing sigma does decrease the price returned by the engine. -/
theorem claim_C7_counterexample :
    (9/100 : ℝ) < 1/10 ∧
    (calculateGreeksJS (Real.exp (27/50)) 1 1 0 (1/10) "call").price <
      (calculateGreeksJS (Real.exp (27/50)) 1 1 0 (9/100) "call").price := by
  refine ⟨by norm_num, ?_⟩
  have hc : (("call" : String) = "call") := rfl
  have hcs1 : clampSigma (9/100 : ℝ) = 9/100 := clampSigma_eq (by norm_num)
  have hcs2 : clampSigma (1/10 : ℝ) = 1/10 := clampSigma_eq (by norm_num)
  have hlog : Real.log (Real.exp (27/50) / 1) = 27/50 := by
    rw [div_one, Real.log_exp]
  have hd1a : d1 (Real.exp (27/50)) 1 1 0 (9/100) = 1209/200 := by
    simp only [d1]
    rw [hlog]
    norm_num [Real.sqrt_one]
  have hd2a : d2 (Real.exp (27/50)) 1 1 0 (9/100) = 1191/200 := by
    rw [d2, hd1a]
    norm_num [Real.sqrt_one]
  have hd1b : d1 (Real.exp (27/50)) 1 1 0 (1/10) = 109/20 := by
    simp only [d1]
    rw [hlog]
    norm_num [Real.sqrt_one]
  have hd2b : d2 (Real.exp (27/50)) 1 1 0 (1/10) = 107/20 := by
    rw [d2, hd1b]
    norm_num [Real.sqrt_one]
  have hN1 : normCdf (1209/200 : ℝ) = 1 := normCdf_eq_one (by norm_num)
  have hN2 : normCdf (1191/200 : ℝ) = normCdfPos (1191/200) :=
    normCdf_eq_pos (by norm_num) (by norm_num)
  have hN3 : normCdf (109/20 : ℝ) = normCdfPos (109/20) :=
    normCdf_eq_pos (by norm_num) (by norm_num)
  have hN4 : normCdf (107/20 : ℝ) = normCdfPos (107/20) :=
    normCdf_eq_pos (by norm_num) (by norm_num)
  have hcall1 : (calculateGreeksJS (Real.exp (27/50)) 1 1 0 (9/100) "call").price =
      Real.exp (27/50) - normCdfPos (1191/200) := by
    simp only [calculateGreeksJS, if_neg (by norm_num : ¬(1 : ℝ) ≤ 0), if_pos hc,
      eq_self_iff_true, if_true, hcs1, hd1a, hd2a, hN1, hN2]
    norm_num [Real.exp_zero]
  have hcall2 : (calculateGreeksJS (Real.exp (27/50)) 1 1 0 (1/10) "call").price =
      Real.exp (27/50) * normCdfPos (109/20) - normCdfPos (107/20) := by
    simp only [calculateGreeksJS, if_neg (by norm_num : ¬(1 : ℝ) ≤ 0), if_pos hc,
      eq_self_iff_true, if_true, hcs2, hd1b, hd2b, hN3, hN4]
    norm_num [Real.exp_zero]
  rw [hcall1, hcall2]
  simp only [normCdfPos]
  set Ea := Real.exp (-(1191/200 : ℝ) * (1191/200) / 2) with hEa_def
  set Eb := Real.exp (-(109/20 : ℝ) * (109/20) / 2) with hEb_def
  set Ec := Real.exp (-(107/20 : ℝ) * (107/20) / 2) with hEc_def
  set Qa := Qp (1 / (1 + p * (1191/200 : ℝ))) with hQa_def
  set Qb := Qp (1 / (1 + p * (109/20 : ℝ))) with hQb_def
  set Qc := Qp (1 / (1 + p * (107/20 : ℝ))) with hQc_def
  have hEa_pos : 0 < Ea := by rw [hEa_def]; exact Real.exp_pos _
  have hEc_pos : 0 < Ec := by rw [hEc_def]; exact Real.exp_pos _
  have hEbc : Real.exp (27/50) * Eb = Ec := by
    rw [hEb_def, hEc_def, ← Real.exp_add]
    norm_num
  have hexp35 : Real.exp (273581/80000 : ℝ) ≤ 35 := by
    have hsplit : Real.exp 1 ^ 3 * Real.exp (33581/80000 : ℝ) =
        Real.exp (273581/80000 : ℝ) := by
      rw [pow_succ, pow_succ, pow_one, ← Real.exp_add, ← Real.exp_add, ← Real.exp_add]
      norm_num
    have hq1 : Real.exp (33581/80000 : ℝ) * (46419/80000) ≤ 1 := by
      have h5 := Real.add_one_le_exp (-(33581/80000 : ℝ))
      have h6 : Real.exp (33581/80000 : ℝ) * Real.exp (-(33581/80000 : ℝ)) = 1 := by
        rw [← Real.exp_add]; norm_num
      nlinarith [Real.exp_pos (33581/80000 : ℝ)]
    have hq2 : Real.exp (33581/80000 : ℝ) ≤ 80000/46419 := by linarith
    have he1 : Real.exp 1 < 2.7182818286 := Real.exp_one_lt_d9
    have he1p : (0 : ℝ) < Real.exp 1 := Real.exp_pos 1
    have hpow : Real.exp 1 ^ 3 ≤ 2.7182818286 ^ 3 := by
      have := pow_le_pow_left₀ he1p.le he1.le 3
      exact this
    calc Real.exp (273581/80000 : ℝ)
        = Real.exp 1 ^ 3 * Real.exp (33581/80000) := hsplit.symm
      _ ≤ Real.exp 1 ^ 3 * (80000/46419) :=
          mul_le_mul_of_nonneg_left hq2 (pow_nonneg he1p.le 3)
      _ ≤ 2.7182818286 ^ 3 * (80000/46419) :=
          mul_le_mul_of_nonneg_right hpow (by norm_num)
      _ ≤ 35 := by norm_num
  have hEc35 : Ec ≤ 35 * Ea := by
    have h8 : Ec = Real.exp (273581/80000 : ℝ) * Ea := by
      rw [hEc_def, hEa_def, ← Real.exp_add]
      norm_num
    rw [h8]
    exact mul_le_mul_of_nonneg_right hexp35 hEa_pos.le
  have hQa163 : (163/1000 : ℝ) ≤ Qa := Qp_at_a
  have hQcb : Qc - Qb ≤ 32/10000 := Qp_diff_cb
  have hcpos : (0 : ℝ) < c := by norm_num [c]
  have hmain : c * Ec * Qc - c * Ec * Qb < c * Ea * Qa := by
    have s1 : c * Ec * (Qc - Qb) ≤ c * Ec * (32/10000) :=
      mul_le_mul_of_nonneg_left hQcb (mul_nonneg hcpos.le hEc_pos.le)
    have s2 : c * Ec * (32/10000) ≤ c * (35 * Ea) * (32/10000) := by
      have := mul_le_mul_of_nonneg_left hEc35 hcpos.le
      nlinarith
    have s3 : c * (35 * Ea) * (32/10000) < c * Ea * (163/1000) := by
      have hca : (0 : ℝ) < c * Ea := mul_pos hcpos hEa_pos
      nlinarith
    have s4 : c * Ea * (163/1000) ≤ c * Ea * Qa :=
      mul_le_mul_of_nonneg_left hQa163 (mul_pos hcpos hEa_pos).le
    nlinarith [s1, s2, s3, s4]
  have h9 : Real.exp (27/50) * (1 - c * Eb * Qb) =
      Real.exp (27/50) - c * Ec * Qb := by
    linear_combination (-(c * Qb)) * hEbc
  calc Real.exp (27/50) * (1 - c * Eb * Qb) - (1 - c * Ec * Qc)
      = Real.exp (27/50) - c * Ec * Qb - (1 - c * Ec * Qc) := by rw [h9]
    _ < Real.exp (27/50) - (1 - c * Ea * Qa) := by linarith

end BS
